import Mathlib

/-!
Verification development for the UPPAAL XTR tracer (tracer.cpp).

The file gives a shallow embedding of the tracer core: the
intermediate-format model loader (loadIF), the XTR symbolic-state and
transition decoders, the trace loop (loadTrace) and the text renderer
(the two output operators), together with theorems that check the
specification claims against the embedded code.

Modeling conventions, applied uniformly:
- machine ints become Int (every value appearing in the claims stays far
  from 32-bit overflow, and the embedded arithmetic mirrors the bit
  operations explicitly where they matter);
- an input stream becomes a list of characters plus a fail flag; the
  line-oriented model loader works directly on the list of its lines;
- a vector subscript that is out of range is undefined behavior in the
  C++ source; the embedding makes such a read return a default and such
  a write change nothing, and each spot is marked by a comment;
- an operation that can throw returns Res, whose third constructor
  records a call of exit(EXIT_FAILURE), i.e. process termination.
-/

namespace Tracer

/-- Outcome of a tracer operation: success, a thrown invalid_format
exception carrying its message, or process termination via
exit(EXIT_FAILURE). -/
inductive Res (α : Type) where
  | ok (a : α)
  | err (msg : String)
  | exited
deriving DecidableEq

instance : Monad Res where
  pure := .ok
  bind r f :=
    match r with
    | .ok a => f a
    | .err m => .err m
    | .exited => .exited

def Res.isOk {α : Type} : Res α → Bool
  | .ok _ => true
  | _ => false

def Res.isExited {α : Type} : Res α → Bool
  | .exited => true
  | _ => false

/-- C isspace in the default locale: space, tab, newline, vertical tab,
form feed, carriage return. -/
def isSpaceC (c : Char) : Bool :=
  c = ' ' || c = '\t' || c = '\n' || c = '\x0b' || c = '\x0c' || c = '\r'

def isDigitC (c : Char) : Bool := '0' ≤ c && c ≤ '9'

/-- Decimal digit accumulation used by the integer scanners. -/
def digitsVal : List Char → Nat → Nat × List Char
  | [], acc => (acc, [])
  | c :: cs, acc =>
    if isDigitC c then digitsVal cs (acc * 10 + (c.toNat - 48)) else (acc, c :: cs)

/-- One or more decimal digits. -/
def scanDigits : List Char → Option (Nat × List Char)
  | [] => none
  | c :: cs => if isDigitC c then some (digitsVal cs (c.toNat - 48)) else none

def dropWsL (cs : List Char) : List Char := cs.dropWhile (fun c => isSpaceC c)

/-- The sscanf %d directive: skip whitespace, then an optionally signed
run of digits. -/
def scanInt (cs : List Char) : Option (Int × List Char) :=
  match dropWsL cs with
  | '-' :: rest => (scanDigits rest).map (fun p => (-(p.1 : Int), p.2))
  | '+' :: rest => (scanDigits rest).map (fun p => ((p.1 : Int), p.2))
  | other => (scanDigits other).map (fun p => ((p.1 : Int), p.2))

/-- sscanf literal directives: each literal character must match exactly
(the literals appearing in tracer.cpp contain no whitespace). -/
def scanLits : List Char → List Char → Option (List Char)
  | [], cs => some cs
  | _ :: _, [] => none
  | l :: ls, c :: cs => if c = l then scanLits ls cs else none

/-- The sscanf %Ns field body: at most n characters, stopping at
whitespace. -/
def takeWord : Nat → List Char → List Char × List Char
  | 0, cs => ([], cs)
  | _ + 1, [] => ([], [])
  | n + 1, c :: cs =>
    if isSpaceC c then ([], c :: cs)
    else
      let p := takeWord n cs
      (c :: p.1, p.2)

/-- The sscanf %Ns directive: skip whitespace, then a nonempty word of at
most n characters. -/
def scanStr (n : Nat) (cs : List Char) : Option (String × List Char) :=
  match takeWord n (dropWsL cs) with
  | ([], _) => none
  | (w, r) => some (String.mk w, r)

inductive CellType where
  | CONST | CLOCK | VAR | META | SYS_META | COST | LOCATION | FIXED
deriving DecidableEq

inductive LocFlags where
  | NONE | COMMITTED | URGENT
deriving DecidableEq

/-- cell_t, with the C union flattened into separate field groups (the
source overlays them in one union; no claim depends on the overlay). In
loadIF the record is declared once outside the layout loop, so fields a
grammar does not assign keep their previous values; the embedding
threads the record through the loop for the same effect. -/
structure Cell where
  type : CellType := .CONST
  name : String := ""
  value : Int := 0
  clockNr : Int := 0
  varMin : Int := 0
  varMax : Int := 0
  varInit : Int := 0
  varNr : Int := 0
  sysMin : Int := 0
  sysMax : Int := 0
  locFlags : LocFlags := .NONE
  locProcess : Int := 0
  locInvariant : Int := 0
  fixedMin : Int := 0
  fixedMax : Int := 0
deriving DecidableEq

structure Process where
  initial : Int := -1
  name : String := ""
  locations : List Int := []
  edges : List Int := []
deriving DecidableEq

structure EdgeT where
  process : Int := -1
  source : Int := -1
  target : Int := -1
  guard : Int := -1
  sync : Int := -1
  update : Int := -1
deriving DecidableEq

/-- The global tables of tracer.cpp. The counters processCount,
variableCount and clockCount always equal the lengths of processes,
variables and clocks, so the embedding derives them from the lists. The
expression map is an association list with unique keys (assignment
replaces). -/
structure Model where
  layout : List Cell := []
  instructions : List Int := []
  processes : List Process := []
  edges : List EdgeT := []
  expressions : List (Int × String) := []
  clocks : List String := []
  varNames : List String := []
deriving DecidableEq

def keyLookup : List (Int × String) → Int → Option String
  | [], _ => none
  | p :: rest, k => if k = p.1 then some p.2 else keyLookup rest k

def keyAssign : List (Int × String) → Int → String → List (Int × String)
  | [], k, v => [(k, v)]
  | p :: rest, k, v => if k = p.1 then (k, v) :: rest else p :: keyAssign rest k v

/-- Vector write through an int subscript. An out-of-range subscript is
undefined behavior in the C++ source; the embedding changes nothing
there. -/
def modifyAt {α : Type} (l : List α) (i : Int) (f : α → α) : List α :=
  if h : 0 ≤ i ∧ i.toNat < l.length then l.set i.toNat (f (l.get ⟨i.toNat, h.2⟩)) else l

/-- Vector read through an int subscript. An out-of-range subscript is
undefined behavior in the C++ source; the embedding returns the given
default there. -/
def getAt {α : Type} (l : List α) (i : Int) (d : α) : α :=
  if 0 ≤ i then l.getD i.toNat d else d

inductive LayoutKind where
  | clockK | constK | varK | metaK | sysMetaK
  | locPlain | locCommitted | locUrgent | fixedK | costK
deriving DecidableEq

/-- One layout record grammar, as in the corresponding sscanf branch of
loadIF; on a full match it performs that branch's record updates. -/
def applyGrammar (k : LayoutKind) (cell : Cell) (cs : List Char) : Option Cell :=
  match k with
  | .clockK => do
    let (_, r) ← scanInt cs
    let r ← scanLits ":clock:".data r
    let (nr, r) ← scanInt r
    let r ← scanLits ":".data r
    let (nm, _) ← scanStr 31 r
    pure { cell with type := .CLOCK, clockNr := nr, name := nm }
  | .constK => do
    let (_, r) ← scanInt cs
    let r ← scanLits ":const:".data r
    let (v, _) ← scanInt r
    pure { cell with type := .CONST, value := v }
  | .varK => do
    let (_, r) ← scanInt cs
    let r ← scanLits ":var:".data r
    let (a, r) ← scanInt r
    let r ← scanLits ":".data r
    let (b, r) ← scanInt r
    let r ← scanLits ":".data r
    let (c, r) ← scanInt r
    let r ← scanLits ":".data r
    let (d, r) ← scanInt r
    let r ← scanLits ":".data r
    let (nm, _) ← scanStr 31 r
    pure { cell with type := .VAR, varMin := a, varMax := b, varInit := c, varNr := d, name := nm }
  | .metaK => do
    let (_, r) ← scanInt cs
    let r ← scanLits ":meta:".data r
    let (a, r) ← scanInt r
    let r ← scanLits ":".data r
    let (b, r) ← scanInt r
    let r ← scanLits ":".data r
    let (c, r) ← scanInt r
    let r ← scanLits ":".data r
    let (d, r) ← scanInt r
    let r ← scanLits ":".data r
    let (nm, _) ← scanStr 31 r
    pure { cell with type := .META, varMin := a, varMax := b, varInit := c, varNr := d, name := nm }
  | .sysMetaK => do
    let (_, r) ← scanInt cs
    let r ← scanLits ":sys_meta:".data r
    let (a, r) ← scanInt r
    let r ← scanLits ":".data r
    let (b, r) ← scanInt r
    let r ← scanLits ":".data r
    let (nm, _) ← scanStr 31 r
    pure { cell with type := .SYS_META, sysMin := a, sysMax := b, name := nm }
  | .locPlain => do
    let (_, r) ← scanInt cs
    let r ← scanLits ":location::".data r
    let (nm, _) ← scanStr 31 r
    pure { cell with type := .LOCATION, locFlags := .NONE, name := nm }
  | .locCommitted => do
    let (_, r) ← scanInt cs
    let r ← scanLits ":location:committed:".data r
    let (nm, _) ← scanStr 31 r
    pure { cell with type := .LOCATION, locFlags := .COMMITTED, name := nm }
  | .locUrgent => do
    let (_, r) ← scanInt cs
    let r ← scanLits ":location:urgent:".data r
    let (nm, _) ← scanStr 31 r
    pure { cell with type := .LOCATION, locFlags := .URGENT, name := nm }
  | .fixedK => do
    let (_, r) ← scanInt cs
    let r ← scanLits ":static:".data r
    let (a, r) ← scanInt r
    let r ← scanLits ":".data r
    let (b, r) ← scanInt r
    let r ← scanLits ":".data r
    let (nm, _) ← scanStr 31 r
    pure { cell with type := .FIXED, fixedMin := a, fixedMax := b, name := nm }
  | .costK => do
    let (_, r) ← scanInt cs
    let r ← scanLits ":".data r
    let (s, _) ← scanStr 5 r
    if s = "cost" then pure { cell with type := .COST } else none

/-- The order in which the layout branch of loadIF tries the record
grammars: exactly the order of its if-else cascade. -/
def layoutTrialOrder : List LayoutKind :=
  [.clockK, .constK, .varK, .metaK, .sysMetaK,
   .locPlain, .locCommitted, .locUrgent, .fixedK, .costK]

def firstGrammar (cell : Cell) (cs : List Char) : List LayoutKind → Option (LayoutKind × Cell)
  | [] => none
  | k :: ks =>
    match applyGrammar k cell cs with
    | some c => some (k, c)
    | none => firstGrammar cell cs ks

/-- Classification of one layout line: the first grammar in the cascade
order that matches wins. -/
def classifyLayout (cell : Cell) (cs : List Char) : Option (LayoutKind × Cell) :=
  firstGrammar cell cs layoutTrialOrder

/-- Per-branch side effects of a matched layout record: the cell is
appended to the layout, and clock or variable names are appended to the
derived name lists. -/
def layoutEffect (m : Model) (k : LayoutKind) (c : Cell) : Model :=
  let m2 := { m with layout := m.layout ++ [c] }
  match k with
  | .clockK => { m2 with clocks := m2.clocks ++ [c.name] }
  | .varK => { m2 with varNames := m2.varNames ++ [c.name] }
  | .metaK => { m2 with varNames := m2.varNames ++ [c.name] }
  | _ => m2

/-- The helper read(): reads one line, skipping comment lines that start
with a hash mark. -/
def readLn : List String → Option (String × List String)
  | [] => none
  | s :: rest =>
    match s.data with
    | '#' :: _ => readLn rest
    | _ => some (s, rest)

/-- Loop condition of most record sections: stop on an empty line or a
line starting with whitespace. -/
def keepPlain (s : String) : Bool :=
  match s.data with
  | [] => false
  | c :: _ => !(isSpaceC c)

/-- Loop condition of the instructions section: a tab-led continuation
line stays in the loop. -/
def keepInstr (s : String) : Bool :=
  match s.data with
  | [] => false
  | c :: _ => !(isSpaceC c) || c = '\t'

/-- Generic record-section loop of loadIF: read lines while the keep
condition holds, feeding each to the section's record handler. The line
that ends the loop is consumed. -/
def recordsLoop (keep : String → Bool) (step : Model → String → Res Model) :
    Nat → Model → List String → Res (Model × List String)
  | 0, _, _ => .err "fuel"
  | fuel + 1, m, lines =>
    match readLn lines with
    | none => .ok (m, [])
    | some (s, rest) =>
      if keep s then
        match step m s with
        | .err e => .err e
        | .exited => .exited
        | .ok m2 => recordsLoop keep step fuel m2 rest
      else .ok (m, rest)

/-- The layout section loop; it additionally threads the cell record
declared outside the loop in the source. -/
def layoutLoop : Nat → Model → Cell → List String → Res (Model × Cell × List String)
  | 0, _, _, _ => .err "fuel"
  | fuel + 1, m, cell, lines =>
    match readLn lines with
    | none => .ok (m, cell, [])
    | some (s, rest) =>
      if keepPlain s then
        match classifyLayout cell s.data with
        | none => .err s
        | some (k, c) => layoutLoop fuel (layoutEffect m k c) c rest
      else .ok (m, cell, rest)

/-- Up to four instruction words after the address label. -/
def scanUpTo4 (cs : List Char) : List Int :=
  match scanInt cs with
  | none => []
  | some (v0, r0) =>
    v0 :: (match scanInt r0 with
      | none => []
      | some (v1, r1) =>
        v1 :: (match scanInt r1 with
          | none => []
          | some (v2, r2) =>
            v2 :: (match scanInt r2 with
              | none => []
              | some (v3, _) => [v3])))

/-- One instructions record: a tab-led line is skipped; otherwise the
sscanf count must reach at least 2 (address and one word). -/
def instructionsStep (m : Model) (s : String) : Res Model :=
  match s.data with
  | '\t' :: _ => .ok m
  | cs =>
    match scanInt cs with
    | none => .err "In instruction section"
    | some (_, r) =>
      match scanLits ":".data r with
      | none => .err "In instruction section"
      | some r2 =>
        match scanUpTo4 r2 with
        | [] => .err "In instruction section"
        | vs => .ok { m with instructions := m.instructions ++ vs }

def gProcessesRec (cs : List Char) : Option (Int × String) := do
  let (_, r) ← scanInt cs
  let r ← scanLits ":".data r
  let (ini, r) ← scanInt r
  let r ← scanLits ":".data r
  let (nm, _) ← scanStr 31 r
  pure (ini, nm)

def processesStep (m : Model) (s : String) : Res Model :=
  match gProcessesRec s.data with
  | none => .err "In process section"
  | some (ini, nm) =>
    .ok { m with processes := m.processes ++ [{ initial := ini, name := nm }] }

def gLocationsRec (cs : List Char) : Option (Int × Int × Int) := do
  let (a, r) ← scanInt cs
  let r ← scanLits ":".data r
  let (b, r) ← scanInt r
  let r ← scanLits ":".data r
  let (c, _) ← scanInt r
  pure (a, b, c)

/-- One locations record: back-patches the referenced layout cell with
owner and invariant, and appends the cell index to the owning process's
location list. The source checks neither that the indices are in range
nor that the cell is a location: an out-of-range subscript is undefined
behavior, modeled as no change; a wrong-tag cell just gets its (union)
location fields written. -/
def locationsStep (m : Model) (s : String) : Res Model :=
  match gLocationsRec s.data with
  | none => .err "In location section"
  | some (idx, prc, inv) =>
    let m2 := { m with
      layout := modifyAt m.layout idx
        (fun c => { c with locProcess := prc, locInvariant := inv }) }
    .ok { m2 with
      processes := modifyAt m2.processes prc
        (fun p => { p with locations := p.locations ++ [idx] }) }

def gEdgesRec (cs : List Char) : Option (Int × Int × Int × Int × Int × Int) := do
  let (a, r) ← scanInt cs
  let r ← scanLits ":".data r
  let (b, r) ← scanInt r
  let r ← scanLits ":".data r
  let (c, r) ← scanInt r
  let r ← scanLits ":".data r
  let (d, r) ← scanInt r
  let r ← scanLits ":".data r
  let (e, r) ← scanInt r
  let r ← scanLits ":".data r
  let (f, _) ← scanInt r
  pure (a, b, c, d, e, f)

/-- One edges record: the new edge's global index (the current length of
the edge table) is appended to the owning process's edge list, then the
edge is appended to the table. No range check on the process index (an
out-of-range subscript is undefined behavior, modeled as no change). -/
def edgesStep (m : Model) (s : String) : Res Model :=
  match gEdgesRec s.data with
  | none => .err "In edge section"
  | some (p, src, tgt, g, sy, u) =>
    let m2 := { m with
      processes := modifyAt m.processes p
        (fun pr => { pr with edges := pr.edges ++ [Int.ofNat m.edges.length] }) }
    .ok { m2 with
      edges := m2.edges ++
        [{ process := p, source := src, target := tgt, guard := g, sync := sy, update := u }] }

/-- Position just past the n-th colon, as in the expression-record
scan. -/
def afterColons : Nat → List Char → Option (List Char)
  | 0, cs => some cs
  | _ + 1, [] => none
  | n + 1, c :: cs => if c = ':' then afterColons n cs else afterColons (n + 1) cs

def trimWs (cs : List Char) : List Char :=
  ((cs.dropWhile (fun c => isSpaceC c)).reverse.dropWhile (fun c => isSpaceC c)).reverse

/-- One expressions record: key, then the text after the third colon,
trimmed of surrounding whitespace; assignment into the keyed map. -/
def expressionsStep (m : Model) (s : String) : Res Model :=
  match scanInt s.data with
  | none => .err "In expression section"
  | some (idx, _) =>
    match afterColons 3 s.data with
    | none => .err "In expression section"
    | some rest =>
      .ok { m with expressions := keyAssign m.expressions idx (String.mk (trimWs rest)) }

/-- The section dispatch loop of loadIF: each bare line names a section;
anything else fails with the unknown-section error. -/
def ifLoop : Nat → Model → Cell → List String → Res Model
  | 0, _, _, _ => .err "fuel"
  | fuel + 1, m, cell, lines =>
    match lines with
    | [] => .ok m
    | sec :: rest =>
      if sec = "layout" then
        match layoutLoop fuel m cell rest with
        | .err e => .err e
        | .exited => .exited
        | .ok (m2, cell2, rem) => ifLoop fuel m2 cell2 rem
      else if sec = "instructions" then
        match recordsLoop keepInstr instructionsStep fuel m rest with
        | .err e => .err e
        | .exited => .exited
        | .ok (m2, rem) => ifLoop fuel m2 cell rem
      else if sec = "processes" then
        match recordsLoop keepPlain processesStep fuel m rest with
        | .err e => .err e
        | .exited => .exited
        | .ok (m2, rem) => ifLoop fuel m2 cell rem
      else if sec = "locations" then
        match recordsLoop keepPlain locationsStep fuel m rest with
        | .err e => .err e
        | .exited => .exited
        | .ok (m2, rem) => ifLoop fuel m2 cell rem
      else if sec = "edges" then
        match recordsLoop keepPlain edgesStep fuel m rest with
        | .err e => .err e
        | .exited => .exited
        | .ok (m2, rem) => ifLoop fuel m2 cell rem
      else if sec = "expressions" then
        match recordsLoop keepPlain expressionsStep fuel m rest with
        | .err e => .err e
        | .exited => .exited
        | .ok (m2, rem) => ifLoop fuel m2 cell rem
      else .err "Unknown section"

/-- loadIF over the list of lines of the model stream. -/
def loadIF (lines : List String) : Res Model :=
  ifLoop (lines.length + 1) {} {} lines

/-! ## The trace stream and its decoders -/

/-- An istream: remaining characters plus the fail flag. -/
structure IStr where
  data : List Char := []
  fail : Bool := false
deriving DecidableEq

def ofString (s : String) : IStr := { data := s.data, fail := false }

/-- istream::peek: the next character, or none at end of input or on a
failed stream (EOF in the source). -/
def IStr.peekc (is : IStr) : Option Char :=
  if is.fail then none else is.data.head?

/-- istream::get: consume and return the next character; at end of input
it returns EOF and sets the fail state. -/
def IStr.getc (is : IStr) : Option Char × IStr :=
  if is.fail then (none, is)
  else
    match is.data with
    | [] => (none, { is with fail := true })
    | c :: cs => (some c, { is with data := cs })

def clearS (is : IStr) : IStr := { is with fail := false }

/-- operator>> for int: skips stream whitespace, then an optional sign
and digits. On failure the stream is marked failed (and the target
variable is zeroed at the call sites, as C++11 num_get does). -/
def readIntS (is : IStr) : Option Int × IStr :=
  if is.fail then (none, is)
  else
    match scanInt is.data with
    | some (n, r) => (some n, { data := r, fail := false })
    | none => (none, { data := dropWsL is.data, fail := true })

/-- The skip_spaces manipulator: consumes space characters only (not
newlines); a failed stream is left alone since peek returns EOF. -/
def skipSpacesS (is : IStr) : IStr :=
  if is.fail then is else { is with data := is.data.dropWhile (fun c => c = ' ') }

/-- std::getline: reads up to the newline (consuming it); at end of
input it fails and leaves the target string untouched (returned as
none). -/
def getlineS (is : IStr) : Option String × IStr :=
  if is.fail then (none, is)
  else
    match is.data with
    | [] => (none, { data := [], fail := true })
    | _ =>
      let line := is.data.takeWhile (fun c => c ≠ '\n')
      let rest := is.data.dropWhile (fun c => c ≠ '\n')
      (some (String.mk line), { data := rest.drop 1, fail := false })

def allSpaceS (s : String) : Bool := s.data.all (fun c => isSpaceC c)

/-- read_dot: reads one line, skipping it if it is all whitespace (the
local string starts empty, and a failed getline leaves it unchanged);
unless the resulting line is "." the process is terminated via
exit(EXIT_FAILURE). -/
def read_dotS (is : IStr) : Res IStr :=
  let p1 := getlineS is
  let s1 := p1.1.getD ""
  let p2 :=
    if allSpaceS s1 then
      let q := getlineS p1.2
      (q.1.getD s1, q.2)
    else (s1, p1.2)
  if p2.1 = "." then .ok p2.2 else .exited

/-! ## Bounds and symbolic states -/

/-- bound_t: a 31-bit value field and a strictness bit. Values stay in
Int; every trace value fits the 31-bit field, so no overflow arises. -/
structure Bound where
  value : Int
  strict : Bool
deriving DecidableEq

/-- The bound (infinity, <): int32 max shifted right once, 2^30 - 1. -/
def infinityB : Bound := { value := 1073741823, strict := true }

/-- The bound (0, <=). -/
def zeroB : Bound := { value := 0, strict := false }

/-- Decoding of an encoded bound, as in the sparse-triple read:
bnd >> 1 is the arithmetic right shift of a signed int, i.e. floor
division by two, which Int.ediv by the positive 2 computes; bnd & 1 is
the low bit of the two-complement form, i.e. the Euclidean remainder
modulo 2. -/
def decodeBound (b : Int) : Bound :=
  { value := b / 2, strict := b % 2 != 0 }

/-- A symbolic state: location vector, integer vector and the flat
clock-bound matrix of size clockCount * clockCount. -/
structure StateS where
  locations : List Int := []
  integers : List Int := []
  dbm : List Bound := []
deriving DecidableEq

def set_bound (cc : Nat) (st : StateS) (i j : Nat) (b : Bound) : StateS :=
  { st with dbm := st.dbm.set (i * cc + j) b }

/-- get_bound through the flat matrix; the default is never reached for
in-range indices (an out-of-range subscript is undefined behavior in the
source). -/
def get_bound (cc : Nat) (st : StateS) (i j : Nat) : Bound :=
  st.dbm.getD (i * cc + j) infinityB

/-- set_bound with the int indices read from the trace; a negative index
would be an undefined-behavior subscript in C++, modeled as no
change. -/
def setBoundI (cc : Nat) (st : StateS) (i j : Int) (b : Bound) : StateS :=
  if 0 ≤ i ∧ 0 ≤ j then set_bound cc st i.toNat j.toNat b else st

/-- State::State(): zeroed location and integer vectors, the matrix
filled with infinity, then row 0 and the diagonal set to (0, <=). -/
def initState (pc vc cc : Nat) : StateS :=
  (List.range cc).foldl
    (fun st i => set_bound cc (set_bound cc st 0 i zeroB) i i zeroB)
    { locations := List.replicate pc 0, integers := List.replicate vc 0,
      dbm := List.replicate (cc * cc) infinityB }

/-- Reads n ints in sequence (the range-for over a vector); once a read
fails, that element and later ones stay zero and the stream stays
failed. -/
def readIntsInto : Nat → IStr → List Int × IStr
  | 0, is => ([], is)
  | n + 1, is =>
    let p := readIntS is
    let q := readIntsInto n p.2
    (p.1.getD 0 :: q.1, q.2)

/-- The sparse-triple loop of State::State(istream): read (i, j, bnd)
triples, each followed by its own terminator line, until a read fails;
every decoded triple overrides one matrix cell. -/
def tripleLoop : Nat → Nat → StateS → IStr → Res (StateS × IStr)
  | 0, _, _, _ => .err "fuel"
  | fuel + 1, cc, st, is =>
    let pi := readIntS is
    match pi.1 with
    | none => .ok (st, pi.2)
    | some i =>
      let pj := readIntS pi.2
      match pj.1 with
      | none => .ok (st, pj.2)
      | some j =>
        let pb := readIntS pj.2
        match pb.1 with
        | none => .ok (st, pb.2)
        | some bnd =>
          match read_dotS pb.2 with
          | .err e => .err e
          | .exited => .exited
          | .ok is2 => tripleLoop fuel cc (setBoundI cc st i j (decodeBound bnd)) is2

/-- State::State(istream): locations, terminator, sparse triples,
clear and terminator, integers, terminator. -/
def decodeState (pc vc cc : Nat) (is : IStr) : Res (StateS × IStr) :=
  let st0 := initState pc vc cc
  let pl := readIntsInto pc is
  match read_dotS pl.2 with
  | .err e => .err e
  | .exited => .exited
  | .ok is1 =>
    match tripleLoop (is1.data.length + 1) cc { st0 with locations := pl.1 } is1 with
    | .err e => .err e
    | .exited => .exited
    | .ok (st1, is2) =>
      match read_dotS (clearS is2) with
      | .err e => .err e
      | .exited => .exited
      | .ok is3 =>
        let pv := readIntsInto vc is3
        match read_dotS pv.2 with
        | .err e => .err e
        | .exited => .exited
        | .ok is4 => .ok ({ st1 with integers := pv.1 }, is4)

/-! ## Transition decoding -/

/-- One edge instance of a transition: process, process-local edge index
and the select values. -/
structure EdgeI where
  process : Int := -1
  edge : Int := -1
  select : List Int := []
deriving DecidableEq

/-- The select loop: while the next character is neither a newline nor a
semicolon, read one select value; a failed read prints the format error
and terminates the process. After each value, spaces are skipped. -/
def selLoop : Nat → List Int → IStr → Res (List Int × IStr)
  | 0, _, _ => .err "fuel"
  | fuel + 1, acc, is =>
    if is.peekc = some '\n' || is.peekc = some ';' then .ok (acc, is)
    else
      let p := readIntS is
      match p.1 with
      | none => .exited
      | some v => selLoop fuel (acc ++ [v]) (skipSpacesS p.2)

inductive TStep where
  | done (is : IStr)
  | next (e : EdgeI) (is : IStr)
deriving DecidableEq

/-- One iteration of the Transition::Transition loop: read the
(process, edge) pair (a failed read ends the loop), skip spaces, read
the select values, then get the delimiter; when it is a newline (the
legacy encoding without a trailing semicolon) the edge index is
decremented to convert the 1-based legacy numbering to 0-based. -/
def transStep (fuel : Nat) (is : IStr) : Res TStep :=
  let pp := readIntS is
  match pp.1 with
  | none => .ok (.done pp.2)
  | some p =>
    let pe := readIntS pp.2
    match pe.1 with
    | none => .ok (.done pe.2)
    | some e =>
      match selLoop fuel [] (skipSpacesS pe.2) with
      | .err m => .err m
      | .exited => .exited
      | .ok (sel, is2) =>
        let g := is2.getc
        let e2 := if g.1 = some '\n' then e - 1 else e
        .ok (.next { process := p, edge := e2, select := sel } g.2)

def transLoop : Nat → List EdgeI → IStr → Res (List EdgeI × IStr)
  | 0, _, _ => .err "fuel"
  | fuel + 1, acc, is =>
    match transStep fuel is with
    | .err m => .err m
    | .exited => .exited
    | .ok (.done is1) => .ok (acc, is1)
    | .ok (.next e is1) => transLoop fuel (acc ++ [e]) is1

/-- Transition::Transition(istream): edge-instance loop, then clear and
the list terminator. -/
def decodeTransition (is : IStr) : Res (List EdgeI × IStr) :=
  match transLoop (is.data.length + 1) [] is with
  | .err m => .err m
  | .exited => .exited
  | .ok (es, is1) =>
    match read_dotS (clearS is1) with
    | .err m => .err m
    | .exited => .exited
    | .ok is2 => .ok (es, is2)

/-! ## The trace loop -/

/-- The loop of loadTrace: skip spaces; a dot terminates the trace;
otherwise read one state and then one transition and append them as one
step (the source prints them in transition-then-state order, pairing the
two values decoded in the same iteration). -/
def traceLoop (pc vc cc : Nat) :
    Nat → List (StateS × List EdgeI) → IStr → Res (List (StateS × List EdgeI) × IStr)
  | 0, _, _ => .err "fuel"
  | fuel + 1, acc, is =>
    let is1 := skipSpacesS is
    if is1.peekc = some '.' then .ok (acc, (is1.getc).2)
    else
      match decodeState pc vc cc is1 with
      | .err e => .err e
      | .exited => .exited
      | .ok (s, is2) =>
        match decodeTransition is2 with
        | .err e => .err e
        | .exited => .exited
        | .ok (t, is3) => traceLoop pc vc cc fuel (acc ++ [(s, t)]) is3

/-- loadTrace: one initial state, then the step loop. -/
def loadTrace (pc vc cc : Nat) (is : IStr) :
    Res (StateS × List (StateS × List EdgeI)) :=
  match decodeState pc vc cc is with
  | .err e => .err e
  | .exited => .exited
  | .ok (s0, is1) =>
    match traceLoop pc vc cc (is1.data.length + 1) [] is1 with
    | .err e => .err e
    | .exited => .exited
    | .ok (steps, _) => .ok (s0, steps)

/-! ## The renderer -/

/-- std::map subscript as used by the transition output operator: the
value for the key, default-inserting an empty string when the key is
absent (the mutation of the global expression table). -/
def mapIndex (es : List (Int × String)) (k : Int) : String × List (Int × String) :=
  match keyLookup es k with
  | some v => (v, es)
  | none => ("", es ++ [(k, "")])

/-- The select-value bracket of the transition output. -/
def selText (sel : List Int) : String :=
  match sel with
  | [] => ""
  | v :: vs => " [" ++ v.repr ++ vs.foldl (fun a w => a ++ "," ++ w.repr) "" ++ "]"

/-- Resolution of an edge instance to the global edge record:
processes[edge.process].edges[edge.edge] then the edge table (range
violations are undefined behavior in the source; defaults here). -/
def resolveEdge (m : Model) (e : EdgeI) : EdgeT :=
  let pr := getAt m.processes e.process {}
  getAt m.edges (getAt pr.edges e.edge 0) {}

/-- The location-to-location head of one rendered edge. -/
def edgeHeadText (m : Model) (e : EdgeI) : String :=
  let pr := getAt m.processes e.process {}
  let ed := resolveEdge m e
  pr.name ++ "." ++ (getAt m.layout ed.source {}).name
    ++ " -> " ++ pr.name ++ "." ++ (getAt m.layout ed.target {}).name

/-- One edge of the transition output operator: the head, the optional
select bracket, and the guard, sync and update expression texts fetched
left to right through the map subscript (which may extend the table; the
table threads through the three reads in print order). -/
def renderEdgeT (m : Model) (es : List (Int × String)) (e : EdgeI) :
    String × List (Int × String) :=
  (edgeHeadText m e ++ selText e.select
      ++ " \x7b" ++ (mapIndex es (resolveEdge m e).guard).1 ++ "; "
      ++ (mapIndex (mapIndex es (resolveEdge m e).guard).2 (resolveEdge m e).sync).1 ++ "; "
      ++ (mapIndex (mapIndex (mapIndex es (resolveEdge m e).guard).2
            (resolveEdge m e).sync).2 (resolveEdge m e).update).1 ++ ";\x7d ",
    (mapIndex (mapIndex (mapIndex es (resolveEdge m e).guard).2
        (resolveEdge m e).sync).2 (resolveEdge m e).update).2)

/-- The transition output operator over all edge instances; it returns
the text and the (possibly extended) expression table. -/
def renderTransitionT (m : Model) (t : List EdgeI) : String × List (Int × String) :=
  t.foldl
    (fun acc e => (acc.1 ++ (renderEdgeT m acc.2 e).1, (renderEdgeT m acc.2 e).2))
    ("", m.expressions)

/-- One clock pair of the state output operator: printed only when the
indices differ and the bound value differs from the infinity sentinel
value. -/
def pairEntry (clocks : List String) (cc : Nat) (st : StateS) (i j : Nat) : String :=
  if i ≠ j then
    let bnd := get_bound cc st i j
    if bnd.value ≠ infinityB.value then
      clocks.getD i "" ++ "-" ++ clocks.getD j ""
        ++ (if bnd.strict then "<" else "<=") ++ bnd.value.repr ++ " "
    else ""
  else ""

/-- The clock section of the state output operator. -/
def clockText (clocks : List String) (cc : Nat) (st : StateS) : String :=
  String.join ((List.range cc).map (fun i =>
    String.join ((List.range cc).map (fun j => pairEntry clocks cc st i j))))

/-- The state output operator: location vector, variables, clocks. It
reads the model tables and the state and builds text only. -/
def renderStateT (m : Model) (st : StateS) : String :=
  String.join ((List.range m.processes.length).map (fun p =>
    let pr := m.processes.getD p {}
    let idx := getAt pr.locations (st.locations.getD p 0) 0
    pr.name ++ "." ++ (getAt m.layout idx {}).name ++ " "))
  ++ String.join ((List.range m.varNames.length).map (fun v =>
    m.varNames.getD v "" ++ "=" ++ (st.integers.getD v 0).repr ++ " "))
  ++ clockText m.clocks m.clocks.length st

/-- Overrides applied to a state in sequence, as the sparse-triple loop
does for in-range triples. -/
def applyOverrides (cc : Nat) (st : StateS) (ovs : List (Nat × Nat × Bound)) : StateS :=
  ovs.foldl (fun s o => set_bound cc s o.1 o.2.1 o.2.2) st

/-- Extension relation between expression tables: every present entry is
preserved, and any entry whose lookup changed is the inserted empty
string. -/
def ExprExt (es es2 : List (Int × String)) : Prop :=
  (∀ k v, keyLookup es k = some v → keyLookup es2 k = some v) ∧
  (∀ k, keyLookup es2 k ≠ keyLookup es k → keyLookup es2 k = some "")

/-! ## Helper lemmas -/

theorem scanLits_some_eq : ∀ (ls cs r : List Char), scanLits ls cs = some r → cs = ls ++ r := by
  intro ls
  induction ls with
  | nil => intro cs r h; simpa [scanLits] using h
  | cons l ls ih =>
    intro cs r h
    cases cs with
    | nil => simp [scanLits] at h
    | cons c cs =>
      by_cases hc : c = l
      · subst hc
        simp only [scanLits, if_pos rfl] at h
        simpa using ih cs r h
      · simp [scanLits, hc] at h

theorem scanLits_mismatch : ∀ (p : List Char) (l : Char) (ls : List Char) (c : Char)
    (cs : List Char), l ≠ c → scanLits (p ++ l :: ls) (p ++ c :: cs) = none := by
  intro p
  induction p with
  | nil =>
    intro l ls c cs h
    simp only [List.nil_append, scanLits]
    exact if_neg (fun hc => h hc.symm)
  | cons a p ih =>
    intro l ls c cs h
    simp only [List.cons_append, scanLits, if_pos rfl]
    exact ih l ls c cs h

theorem getD_set_self {α : Type} (l : List α) (n : Nat) (a d : α) (h : n < l.length) :
    (l.set n a).getD n d = a := by
  induction l generalizing n with
  | nil => simp at h
  | cons x xs ih =>
    cases n with
    | zero => simp [List.set, List.getD]
    | succ m =>
      simp only [List.set, List.getD_cons_succ]
      exact ih m (by simpa using h)

theorem getD_set_ne {α : Type} (l : List α) (m n : Nat) (a d : α) (h : m ≠ n) :
    (l.set m a).getD n d = l.getD n d := by
  induction l generalizing m n with
  | nil => simp [List.set]
  | cons x xs ih =>
    cases m with
    | zero =>
      cases n with
      | zero => exact absurd rfl h
      | succ k => simp [List.set, List.getD_cons_succ]
    | succ m2 =>
      cases n with
      | zero => simp [List.set, List.getD_cons_zero]
      | succ k =>
        simp only [List.set, List.getD_cons_succ]
        exact ih m2 k (fun he => h (by rw [he]))

theorem flat_index_inj {cc a b i j : Nat} (hb : b < cc) (hj : j < cc) :
    a * cc + b = i * cc + j ↔ a = i ∧ b = j := by
  constructor
  · intro h
    have hcc : 0 < cc := Nat.lt_of_le_of_lt (Nat.zero_le _) hb
    have ha : a = i := by
      have h1 : (a * cc + b) / cc = a := by
        rw [Nat.mul_comm a cc, Nat.mul_add_div hcc, Nat.div_eq_of_lt hb]; omega
      have h2 : (i * cc + j) / cc = i := by
        rw [Nat.mul_comm i cc, Nat.mul_add_div hcc, Nat.div_eq_of_lt hj]; omega
      rw [← h1, h, h2]
    refine ⟨ha, ?_⟩
    subst ha
    omega
  · rintro ⟨rfl, rfl⟩
    rfl

theorem dbm_length_set_bound (cc : Nat) (st : StateS) (i j : Nat) (b : Bound) :
    (set_bound cc st i j b).dbm.length = st.dbm.length := by
  simp [set_bound]

theorem get_bound_set_bound (cc : Nat) (st : StateS) (a b i j : Nat) (v : Bound)
    (ha : a < cc) (hb : b < cc) (hi : i < cc) (hj : j < cc)
    (hlen : st.dbm.length = cc * cc) :
    get_bound cc (set_bound cc st a b v) i j =
      if a = i ∧ b = j then v else get_bound cc st i j := by
  by_cases h : a = i ∧ b = j
  · obtain ⟨rfl, rfl⟩ := h
    have hin : a * cc + b < st.dbm.length := by
      rw [hlen]
      calc a * cc + b < a * cc + cc := by omega
        _ = (a + 1) * cc := by ring
        _ ≤ cc * cc := Nat.mul_le_mul_right cc ha
    rw [if_pos (show a = a ∧ b = b from ⟨rfl, rfl⟩)]
    exact getD_set_self st.dbm (a * cc + b) v infinityB hin
  · have hne : a * cc + b ≠ i * cc + j := by
      intro he
      exact h ((flat_index_inj hb hj).mp he)
    simp only [if_neg h]
    exact getD_set_ne st.dbm (a * cc + b) (i * cc + j) v infinityB hne

/-- The seeding loop of State::State() up to iteration k. -/
theorem initState_eq_foldl (pc vc cc : Nat) :
    initState pc vc cc =
      (List.range cc).foldl
        (fun st i => set_bound cc (set_bound cc st 0 i zeroB) i i zeroB)
        { locations := List.replicate pc 0, integers := List.replicate vc 0,
          dbm := List.replicate (cc * cc) infinityB } := rfl

theorem seed_foldl_length (cc : Nat) (l : List Nat) (st : StateS) :
    ((l.foldl (fun s i => set_bound cc (set_bound cc s 0 i zeroB) i i zeroB) st).dbm.length)
      = st.dbm.length := by
  induction l generalizing st with
  | nil => rfl
  | cons x xs ih => simp [ih, dbm_length_set_bound]

theorem seed_prefix_get (pc vc cc : Nat) :
    ∀ (k : Nat), k ≤ cc → ∀ (i j : Nat), i < cc → j < cc →
      get_bound cc
        ((List.range k).foldl
          (fun st i2 => set_bound cc (set_bound cc st 0 i2 zeroB) i2 i2 zeroB)
          { locations := List.replicate pc 0, integers := List.replicate vc 0,
            dbm := List.replicate (cc * cc) infinityB }) i j =
        if (i = 0 ∧ j < k) ∨ (i = j ∧ i < k) then zeroB else infinityB := by
  intro k
  induction k with
  | zero =>
    intro _ i j hi hj
    have hin : i * cc + j < cc * cc := by
      calc i * cc + j < i * cc + cc := by omega
        _ = (i + 1) * cc := by ring
        _ ≤ cc * cc := Nat.mul_le_mul_right cc hi
    simp [get_bound, List.getD_eq_getElem?_getD, List.getElem?_replicate, hin]
  | succ k ih =>
    intro hk i j hi hj
    have hkcc : k < cc := hk
    have hlen :
        ((List.range k).foldl
          (fun st i2 => set_bound cc (set_bound cc st 0 i2 zeroB) i2 i2 zeroB)
          { locations := List.replicate pc 0, integers := List.replicate vc 0,
            dbm := List.replicate (cc * cc) infinityB } : StateS).dbm.length = cc * cc := by
      rw [seed_foldl_length]
      simp
    rw [List.range_succ, List.foldl_append]
    simp only [List.foldl_cons, List.foldl_nil]
    rw [get_bound_set_bound cc _ k k i j zeroB hkcc hkcc hi hj
      (by rw [dbm_length_set_bound]; exact hlen)]
    rw [get_bound_set_bound cc _ 0 k i j zeroB
      (Nat.lt_of_le_of_lt (Nat.zero_le _) hkcc) hkcc hi hj hlen]
    rw [ih (Nat.le_of_lt hk) i j hi hj]
    split_ifs <;> first | rfl | omega

theorem initState_get (pc vc cc : Nat) (i j : Nat) (hi : i < cc) (hj : j < cc) :
    get_bound cc (initState pc vc cc) i j =
      if i = 0 ∨ i = j then zeroB else infinityB := by
  rw [initState_eq_foldl]
  rw [seed_prefix_get pc vc cc cc (Nat.le_refl cc) i j hi hj]
  by_cases h : i = 0 ∨ i = j
  · rw [if_pos h, if_pos (by omega)]
  · rw [if_neg h, if_neg (by omega)]

theorem initState_dbm_length (pc vc cc : Nat) :
    (initState pc vc cc).dbm.length = cc * cc := by
  rw [initState_eq_foldl, seed_foldl_length]
  simp

theorem applyOverrides_get (cc : Nat) (ovs : List (Nat × Nat × Bound)) :
    ∀ (st : StateS) (i : Nat), i < cc → st.dbm.length = cc * cc →
      (∀ o ∈ ovs, o.1 < cc ∧ o.2.1 < cc ∧ o.1 ≠ o.2.1 ∧ o.1 ≠ 0) →
      get_bound cc (applyOverrides cc st ovs) i i = get_bound cc st i i ∧
        get_bound cc (applyOverrides cc st ovs) 0 i = get_bound cc st 0 i := by
  induction ovs with
  | nil => intro st i _ _ _; exact ⟨rfl, rfl⟩
  | cons o rest ih =>
    intro st i hi hlen hovs
    obtain ⟨ha, hb, hne, hnz⟩ := hovs o (List.mem_cons_self o rest)
    have hcc : 0 < cc := Nat.lt_of_le_of_lt (Nat.zero_le _) hi
    have hrest : ∀ o2 ∈ rest, o2.1 < cc ∧ o2.2.1 < cc ∧ o2.1 ≠ o2.2.1 ∧ o2.1 ≠ 0 :=
      fun o2 h2 => hovs o2 (List.mem_cons_of_mem o h2)
    have hlen2 : (set_bound cc st o.1 o.2.1 o.2.2).dbm.length = cc * cc := by
      rw [dbm_length_set_bound]; exact hlen
    have hstep := ih (set_bound cc st o.1 o.2.1 o.2.2) i hi hlen2 hrest
    have hii : get_bound cc (set_bound cc st o.1 o.2.1 o.2.2) i i = get_bound cc st i i := by
      rw [get_bound_set_bound cc st o.1 o.2.1 i i o.2.2 ha hb hi hi hlen]
      exact if_neg (fun hc => hne (hc.1.trans hc.2.symm))
    have h0i : get_bound cc (set_bound cc st o.1 o.2.1 o.2.2) 0 i = get_bound cc st 0 i := by
      rw [get_bound_set_bound cc st o.1 o.2.1 0 i o.2.2 ha hb hcc hi hlen]
      exact if_neg (fun hc => hnz hc.1)
    unfold applyOverrides at hstep ⊢
    simp only [List.foldl_cons]
    exact ⟨hstep.1.trans hii, hstep.2.trans h0i⟩

/-- Claim C1, amended: immediately after seeding, the diagonal entries
bound(i,i) and the row-0 entries bound(0,i) are (0, <=) — the column
entries bound(i,0) with i different from 0 hold infinity instead, as the
C1 counterexample shows — and the diagonal and row-0 entries stay (0,
<=) after any sequence of in-range sparse overrides none of which
targets a diagonal or row-0 cell. -/
theorem c1_bounds_amended (pc vc cc : Nat) (ovs : List (Nat × Nat × Bound)) (i : Nat)
    (hi : i < cc)
    (hovs : ∀ o ∈ ovs, o.1 < cc ∧ o.2.1 < cc ∧ o.1 ≠ o.2.1 ∧ o.1 ≠ 0) :
    (get_bound cc (initState pc vc cc) i i = zeroB ∧
      get_bound cc (initState pc vc cc) 0 i = zeroB) ∧
    (get_bound cc (applyOverrides cc (initState pc vc cc) ovs) i i = zeroB ∧
      get_bound cc (applyOverrides cc (initState pc vc cc) ovs) 0 i = zeroB) := by
  have hcc : 0 < cc := Nat.lt_of_le_of_lt (Nat.zero_le _) hi
  have h1 : get_bound cc (initState pc vc cc) i i = zeroB := by
    rw [initState_get pc vc cc i i hi hi]
    exact if_pos (Or.inr rfl)
  have h2 : get_bound cc (initState pc vc cc) 0 i = zeroB := by
    rw [initState_get pc vc cc 0 i hcc hi]
    exact if_pos (Or.inl rfl)
  have hp := applyOverrides_get cc ovs (initState pc vc cc) i hi
    (initState_dbm_length pc vc cc) hovs
  exact ⟨⟨h1, h2⟩, ⟨hp.1.trans h1, hp.2.trans h2⟩⟩

/-- Claim C1 witness: a two-clock state with one override of cell (1, 0)
keeps bound(1,1) and bound(0,1) at (0, <=). -/
theorem c1_bounds_amended_witness :
    get_bound 2 (applyOverrides 2 (initState 0 0 2) [(1, 0, decodeBound 5)]) 1 1 = zeroB ∧
      get_bound 2 (applyOverrides 2 (initState 0 0 2) [(1, 0, decodeBound 5)]) 0 1 = zeroB :=
  (c1_bounds_amended 0 0 2 [(1, 0, decodeBound 5)] 1 (by decide) (by decide)).2

/-- Claim C1 counterexample: decoding a state of a two-clock model with
an empty sparse list yields bound(1,0) = infinity, not (0, <=): row 0 is
seeded to (0, <=) but column 0 is not. -/
theorem c1_counterexample :
    decodeState 1 0 2 (ofString "0\n.\n.\n.\n") =
      .ok ({ locations := [0], integers := [],
             dbm := [zeroB, zeroB, infinityB, zeroB] },
           { data := [], fail := false }) ∧
    get_bound 2 { locations := [0], integers := [],
                  dbm := [zeroB, zeroB, infinityB, zeroB] } 1 0 ≠ zeroB := by
  constructor
  · decide
  · decide

/-- Claim C10: after seeding and before any sparse override, every
matrix entry (i, j) with i different from j and from 0 holds the
infinity sentinel (2^30 - 1, strict); and the state renderer emits a
constraint for a pair of distinct indices exactly when the entry value
differs from the sentinel value. -/
theorem c10_seed_and_render (pc vc cc : Nat) :
    (∀ i j, i < cc → j < cc → i ≠ 0 → i ≠ j →
      get_bound cc (initState pc vc cc) i j = infinityB) ∧
    (∀ (clocks : List String) (st : StateS) (i j : Nat),
      pairEntry clocks cc st i j ≠ "" ↔
        i ≠ j ∧ (get_bound cc st i j).value ≠ infinityB.value) := by
  constructor
  · intro i j hi hj hi0 hij
    rw [initState_get pc vc cc i j hi hj]
    exact if_neg (by tauto)
  · intro clocks st i j
    unfold pairEntry
    by_cases hij : i = j
    · subst hij
      simp
    · rw [if_pos hij]
      by_cases hv : (get_bound cc st i j).value ≠ infinityB.value
      · rw [if_pos hv]
        constructor
        · intro _; exact ⟨hij, hv⟩
        · intro _ hs
          have hlen := congrArg String.length hs
          simp only [String.length_append] at hlen
          have hd : ("-" : String).length = 1 := rfl
          have hsp : (" " : String).length = 1 := rfl
          have hz : ("" : String).length = 0 := rfl
          rw [hd, hsp, hz] at hlen
          omega
      · rw [if_neg hv]
        simp only [ne_eq, not_true_eq_false, false_iff, not_and]
        intro _
        exact fun hc => hv hc

/-- Claim C10 witness: in a freshly seeded two-clock state, entry (1, 0)
holds the infinity sentinel and is not rendered, while an overridden
cell is. -/
theorem c10_seed_and_render_witness :
    get_bound 2 (initState 0 0 2) 1 0 = infinityB ∧
      ¬(pairEntry ["t0", "x"] 2 (initState 0 0 2) 1 0 ≠ "") :=
  ⟨(c10_seed_and_render 0 0 2).1 1 0 (by decide) (by decide) (by decide) (by decide),
    fun h => by
      have := ((c10_seed_and_render 0 0 2).2 ["t0", "x"] (initState 0 0 2) 1 0).mp h
      exact absurd (by decide : (get_bound 2 (initState 0 0 2) 1 0).value = infinityB.value)
        this.2⟩

/-- Claim C7: decoding an encoded bound inverts the packing
value * 2 + (strict then 1 else 0) for every value representable in the
31-bit field. -/
theorem c7_bound_decoding (v : Int) (s : Bool)
    (hlo : -1073741824 ≤ v) (hhi : v < 1073741824) :
    decodeBound (v * 2 + (if s then 1 else 0)) = { value := v, strict := s } := by
  unfold decodeBound
  cases s with
  | false =>
    simp only [Bool.false_eq_true, if_false, Bound.mk.injEq]
    have h2 : (v * 2 + 0) % 2 = 0 := by omega
    rw [h2]
    exact ⟨by omega, rfl⟩
  | true =>
    simp only [if_true, Bound.mk.injEq]
    have h2 : (v * 2 + 1) % 2 = 1 := by omega
    rw [h2]
    exact ⟨by omega, rfl⟩

/-- Claim C7 witness: the negative strict bound -5 packed as -9 decodes
back to (-5, strict). -/
theorem c7_bound_decoding_witness :
    decodeBound ((-5) * 2 + (if true then 1 else 0)) = { value := -5, strict := true } :=
  c7_bound_decoding (-5) true (by decide) (by decide)

/-- Claim C3: a legacy transition entry (terminated by a newline, no
semicolon) with raw edge index e yields exactly the same edge instance
as a current-format entry (terminated by a semicolon) with edge index
e - 1, and both leave the stream at the same position: the legacy
decrement is applied per edge instance. -/
theorem c3_legacy_equiv (A A1 A2 B B1 B2 : IStr) (p e : Int) (sel : List Int)
    (fa fb : Nat) (rest : List Char)
    (hA1 : readIntS A = (some p, A1)) (hA2 : readIntS A1 = (some e, A2))
    (hB1 : readIntS B = (some p, B1)) (hB2 : readIntS B1 = (some (e - 1), B2))
    (hselA : selLoop fa [] (skipSpacesS A2) = .ok (sel, { data := '\n' :: rest, fail := false }))
    (hselB : selLoop fb [] (skipSpacesS B2) = .ok (sel, { data := ';' :: rest, fail := false })) :
    transStep fa A = .ok (.next { process := p, edge := e - 1, select := sel }
        { data := rest, fail := false }) ∧
      transStep fb B = .ok (.next { process := p, edge := e - 1, select := sel }
        { data := rest, fail := false }) := by
  constructor
  · unfold transStep
    rw [hA1]
    simp only
    rw [hA2]
    simp only
    rw [hselA]
    simp [IStr.getc]
  · unfold transStep
    rw [hB1]
    simp only
    rw [hB2]
    simp only
    rw [hselB]
    simp [IStr.getc]

/-- Claim C3 witness: the legacy entry "0 1" with a newline and the
current entry "0 0" with a semicolon decode to the same edge instance
with local edge index 0. -/
theorem c3_legacy_equiv_witness :
    transStep 1 (ofString "0 1\n.") = .ok (.next { process := 0, edge := 0, select := [] }
        { data := ".".data, fail := false }) ∧
      transStep 1 (ofString "0 0;.") = .ok (.next { process := 0, edge := 0, select := [] }
        { data := ".".data, fail := false }) :=
  c3_legacy_equiv (ofString "0 1\n.") { data := " 1\n.".data, fail := false }
    { data := "\n.".data, fail := false } (ofString "0 0;.")
    { data := " 0;.".data, fail := false } { data := ";.".data, fail := false }
    0 1 [] 1 1 ".".data
    (by decide) (by decide) (by decide) (by decide) (by decide) (by decide)

theorem instructionsStep_not_exited (m : Model) (s : String) :
    (instructionsStep m s).isExited = false := by
  unfold instructionsStep
  split
  · rfl
  · split
    · rfl
    · split
      · rfl
      · split
        · rfl
        · rfl

theorem processesStep_not_exited (m : Model) (s : String) :
    (processesStep m s).isExited = false := by
  unfold processesStep
  split <;> rfl

theorem locationsStep_not_exited (m : Model) (s : String) :
    (locationsStep m s).isExited = false := by
  unfold locationsStep
  split <;> rfl

theorem edgesStep_not_exited (m : Model) (s : String) :
    (edgesStep m s).isExited = false := by
  unfold edgesStep
  split <;> rfl

theorem expressionsStep_not_exited (m : Model) (s : String) :
    (expressionsStep m s).isExited = false := by
  unfold expressionsStep
  split
  · rfl
  · split <;> rfl

theorem recordsLoop_not_exited (keep : String → Bool) (step : Model → String → Res Model)
    (hstep : ∀ m s, (step m s).isExited = false) :
    ∀ (fuel : Nat) (m : Model) (lines : List String),
      (recordsLoop keep step fuel m lines).isExited = false := by
  intro fuel
  induction fuel with
  | zero => intro m lines; rfl
  | succ f ih =>
    intro m lines
    unfold recordsLoop
    cases hr : readLn lines with
    | none => rfl
    | some p =>
      obtain ⟨s, rest⟩ := p
      by_cases hk : keep s
      · simp only [hk, if_true]
        cases hs : step m s with
        | ok m2 => exact ih m2 rest
        | err e => rfl
        | exited =>
          have hh := hstep m s
          rw [hs] at hh
          exact absurd hh (by simp [Res.isExited])
      · simp only [hk, if_false]
        rfl

theorem layoutLoop_not_exited :
    ∀ (fuel : Nat) (m : Model) (cell : Cell) (lines : List String),
      (layoutLoop fuel m cell lines).isExited = false := by
  intro fuel
  induction fuel with
  | zero => intro m cell lines; rfl
  | succ f ih =>
    intro m cell lines
    unfold layoutLoop
    cases hr : readLn lines with
    | none => rfl
    | some p =>
      obtain ⟨s, rest⟩ := p
      by_cases hk : keepPlain s
      · simp only [hk, if_true]
        cases hc : classifyLayout cell s.data with
        | none => rfl
        | some kc => exact ih (layoutEffect m kc.1 kc.2) kc.2 rest
      · simp only [hk, if_false]
        rfl

theorem ifLoop_not_exited :
    ∀ (fuel : Nat) (m : Model) (cell : Cell) (lines : List String),
      (ifLoop fuel m cell lines).isExited = false := by
  intro fuel
  induction fuel with
  | zero => intro m cell lines; rfl
  | succ f ih =>
    intro m cell lines
    cases lines with
    | nil => rfl
    | cons sec rest =>
      simp only [ifLoop]
      split_ifs
      · cases hl : layoutLoop f m cell rest with
        | err e => rfl
        | exited =>
          have hh := layoutLoop_not_exited f m cell rest
          rw [hl] at hh
          exact absurd hh (by simp [Res.isExited])
        | ok t =>
          obtain ⟨m2, cell2, rem⟩ := t
          exact ih m2 cell2 rem
      · cases hl : recordsLoop keepInstr instructionsStep f m rest with
        | err e => rfl
        | exited =>
          have hh := recordsLoop_not_exited keepInstr instructionsStep
            instructionsStep_not_exited f m rest
          rw [hl] at hh
          exact absurd hh (by simp [Res.isExited])
        | ok t =>
          obtain ⟨m2, rem⟩ := t
          exact ih m2 cell rem
      · cases hl : recordsLoop keepPlain processesStep f m rest with
        | err e => rfl
        | exited =>
          have hh := recordsLoop_not_exited keepPlain processesStep
            processesStep_not_exited f m rest
          rw [hl] at hh
          exact absurd hh (by simp [Res.isExited])
        | ok t =>
          obtain ⟨m2, rem⟩ := t
          exact ih m2 cell rem
      · cases hl : recordsLoop keepPlain locationsStep f m rest with
        | err e => rfl
        | exited =>
          have hh := recordsLoop_not_exited keepPlain locationsStep
            locationsStep_not_exited f m rest
          rw [hl] at hh
          exact absurd hh (by simp [Res.isExited])
        | ok t =>
          obtain ⟨m2, rem⟩ := t
          exact ih m2 cell rem
      · cases hl : recordsLoop keepPlain edgesStep f m rest with
        | err e => rfl
        | exited =>
          have hh := recordsLoop_not_exited keepPlain edgesStep
            edgesStep_not_exited f m rest
          rw [hl] at hh
          exact absurd hh (by simp [Res.isExited])
        | ok t =>
          obtain ⟨m2, rem⟩ := t
          exact ih m2 cell rem
      · cases hl : recordsLoop keepPlain expressionsStep f m rest with
        | err e => rfl
        | exited =>
          have hh := recordsLoop_not_exited keepPlain expressionsStep
            expressionsStep_not_exited f m rest
          rw [hl] at hh
          exact absurd hh (by simp [Res.isExited])
        | ok t =>
          obtain ⟨m2, rem⟩ := t
          exact ih m2 cell rem
      · rfl

/-- Claim C5, amended: model loading never terminates the process (its
failures are thrown invalid_format exceptions surfaced to the caller),
but the trace-side decoders do terminate it: read_dot either succeeds or
exits the process, and it never surfaces an error to its caller; the C5
counterexample shows state decoding exiting on a malformed terminator
line. -/
theorem c5_exit_amended :
    (∀ (lines : List String), (loadIF lines).isExited = false) ∧
    (∀ (is : IStr), read_dotS is = .exited ∨ ∃ is2, read_dotS is = .ok is2) := by
  constructor
  · intro lines
    exact ifLoop_not_exited (lines.length + 1) {} {} lines
  · intro is
    by_cases h1 : allSpaceS ((getlineS is).1.getD "")
    · by_cases h2 : (getlineS (getlineS is).2).1.getD ((getlineS is).1.getD "") = "."
      · exact Or.inr ⟨(getlineS (getlineS is).2).2, by simp [read_dotS, h1, h2]⟩
      · exact Or.inl (by simp [read_dotS, h1, h2])
    · by_cases h2 : (getlineS is).1.getD "" = "."
      · refine Or.inr ⟨(getlineS is).2, ?_⟩
        have h3 : allSpaceS "." = false := rfl
        simp [read_dotS, h1, h2, h3]
      · exact Or.inl (by simp [read_dotS, h1, h2])

/-- Claim C5 counterexample: decoding a state from the input whose
terminator line is "X" instead of "." terminates the process (the source
calls exit(EXIT_FAILURE) in read_dot), so a core decode operation does
terminate the process itself. -/
theorem c5_counterexample :
    decodeState 1 0 1 (ofString "0\nX\n") = .exited := by decide

/-- Claim C2, amended: the loader performs no reference validation on
locations or edges records. A record fails — with the invalid_format
messages of the source, not any InvalidReference error — exactly when it
does not parse as three (respectively six) colon-separated integers;
a record that parses is accepted no matter whether the process index is
in range or the referenced cell is a location (the out-of-range
subscript is undefined behavior in the C++). -/
theorem c2_reference_amended (m : Model) (s : String) :
    ((gLocationsRec s.data = none → locationsStep m s = .err "In location section") ∧
      (∀ t, gLocationsRec s.data = some t → (locationsStep m s).isOk = true)) ∧
    ((gEdgesRec s.data = none → edgesStep m s = .err "In edge section") ∧
      (∀ t, gEdgesRec s.data = some t → (edgesStep m s).isOk = true)) := by
  constructor
  · constructor
    · intro h
      simp [locationsStep, h]
    · intro t h
      obtain ⟨a, b, c⟩ := t
      simp [locationsStep, h, Res.isOk]
  · constructor
    · intro h
      simp [edgesStep, h]
    · intro t h
      obtain ⟨a, b, c, d, e, f⟩ := t
      simp [edgesStep, h, Res.isOk]

/-- Claim C2 witness: the locations record 0:3:0 and the edges record
0:1:2:3:4:5 are both accepted against the empty model, where process
indices 3 and 0 are out of range. -/
theorem c2_reference_amended_witness :
    (locationsStep {} "0:3:0").isOk = true ∧
      (edgesStep {} "0:1:2:3:4:5").isOk = true :=
  ⟨(c2_reference_amended {} "0:3:0").1.2 (0, 3, 0) (by decide),
    (c2_reference_amended {} "0:1:2:3:4:5").2.2 (0, 1, 2, 3, 4, 5) (by decide)⟩

/-- Claim C2 counterexample: a model whose locations section targets
process 3 of an empty process table through cell 0, which is a CONST
cell and not a location, still loads successfully and returns a Model —
no InvalidReference failure exists in the code. -/
theorem c2_counterexample :
    loadIF ["layout", "0:const:5", "", "locations", "0:3:0"] =
      .ok { layout := [{ type := .CONST, value := 5, locProcess := 3 }],
            instructions := [], processes := [], edges := [], expressions := [],
            clocks := [], varNames := [] } := by decide

theorem scanLits_colon2 (l c : Char) (ls cs : List Char) (h : l ≠ c) :
    scanLits (':' :: l :: ls) (':' :: c :: cs) = none :=
  scanLits_mismatch [':'] l ls c cs h

theorem scanLits_plain_flagged (c10 : Char) (rest : List Char) (h : ':' ≠ c10) :
    scanLits [':', 'l', 'o', 'c', 'a', 't', 'i', 'o', 'n', ':', ':']
      (':' :: 'l' :: 'o' :: 'c' :: 'a' :: 't' :: 'i' :: 'o' :: 'n' :: ':' :: c10 :: rest) =
      none :=
  scanLits_mismatch [':', 'l', 'o', 'c', 'a', 't', 'i', 'o', 'n', ':'] ':' [] c10 rest h

theorem scanLits_committed_flagged (c10 : Char) (rest : List Char) (h : 'c' ≠ c10) :
    scanLits
      [':', 'l', 'o', 'c', 'a', 't', 'i', 'o', 'n', ':',
        'c', 'o', 'm', 'm', 'i', 't', 't', 'e', 'd', ':']
      (':' :: 'l' :: 'o' :: 'c' :: 'a' :: 't' :: 'i' :: 'o' :: 'n' :: ':' :: c10 :: rest) =
      none :=
  scanLits_mismatch [':', 'l', 'o', 'c', 'a', 't', 'i', 'o', 'n', ':'] 'c'
    ['o', 'm', 'm', 'i', 't', 't', 'e', 'd', ':'] c10 rest h

/-- Claim C8, amended: layout classification is a fixed priority order,
but the plain location grammar is tried before the flagged variants, not
after them; nevertheless, because the plain grammar demands an empty
flag field (a double colon) it can never match a committed or urgent
record, so such records are never parsed as a plain (flag None)
location: whenever the committed (urgent) grammar matches, the cascade
classifies the line as committed (urgent). -/
theorem c8_layout_order_amended (cell : Cell) (cs : List Char) (c : Cell) :
    (applyGrammar .locCommitted cell cs = some c →
      classifyLayout cell cs = some (.locCommitted, c) ∧ c.locFlags = .COMMITTED) ∧
    (applyGrammar .locUrgent cell cs = some c →
      classifyLayout cell cs = some (.locUrgent, c) ∧ c.locFlags = .URGENT) := by
  constructor
  · intro h
    cases hscan : scanInt cs with
    | none => simp [applyGrammar, hscan] at h
    | some pr =>
      obtain ⟨n, r⟩ := pr
      cases hlit : scanLits ":location:committed:".data r with
      | none => simp [applyGrammar, hscan, hlit] at h
      | some r1 =>
        cases hstr : scanStr 31 r1 with
        | none => simp [applyGrammar, hscan, hlit, hstr] at h
        | some pr2 =>
          obtain ⟨nm, r2⟩ := pr2
          have hr := scanLits_some_eq _ _ _ hlit
          have hr2 : r = ":location:".data ++ ('c' :: ("ommitted:".data ++ r1)) := hr
          subst hr2
          have hclk : applyGrammar .clockK cell cs = none := by
            simp only [applyGrammar, hscan, Option.bind_eq_bind, Option.some_bind, List.cons_append,
              List.nil_append]
            rw [scanLits_colon2 'c' 'l' _ _ (by decide)]
            rfl
          have hcst : applyGrammar .constK cell cs = none := by
            simp only [applyGrammar, hscan, Option.bind_eq_bind, Option.some_bind, List.cons_append,
              List.nil_append]
            rw [scanLits_colon2 'c' 'l' _ _ (by decide)]
            rfl
          have hvar : applyGrammar .varK cell cs = none := by
            simp only [applyGrammar, hscan, Option.bind_eq_bind, Option.some_bind, List.cons_append,
              List.nil_append]
            rw [scanLits_colon2 'v' 'l' _ _ (by decide)]
            rfl
          have hmet : applyGrammar .metaK cell cs = none := by
            simp only [applyGrammar, hscan, Option.bind_eq_bind, Option.some_bind, List.cons_append,
              List.nil_append]
            rw [scanLits_colon2 'm' 'l' _ _ (by decide)]
            rfl
          have hsys : applyGrammar .sysMetaK cell cs = none := by
            simp only [applyGrammar, hscan, Option.bind_eq_bind, Option.some_bind, List.cons_append,
              List.nil_append]
            rw [scanLits_colon2 's' 'l' _ _ (by decide)]
            rfl
          have hpln : applyGrammar .locPlain cell cs = none := by
            simp only [applyGrammar, hscan, Option.bind_eq_bind, Option.some_bind, List.cons_append,
              List.nil_append]
            rw [scanLits_plain_flagged 'c' _ (by decide)]
            rfl
          have hflag : c.locFlags = .COMMITTED := by
            simp only [applyGrammar, hscan, Option.bind_eq_bind, Option.some_bind, hlit, hstr,
              Option.pure_def, Option.some.injEq] at h
            rw [← h]
          refine ⟨?_, hflag⟩
          simp only [classifyLayout, layoutTrialOrder, firstGrammar,
            hclk, hcst, hvar, hmet, hsys, hpln, h]
  · intro h
    cases hscan : scanInt cs with
    | none => simp [applyGrammar, hscan] at h
    | some pr =>
      obtain ⟨n, r⟩ := pr
      cases hlit : scanLits ":location:urgent:".data r with
      | none => simp [applyGrammar, hscan, hlit] at h
      | some r1 =>
        cases hstr : scanStr 31 r1 with
        | none => simp [applyGrammar, hscan, hlit, hstr] at h
        | some pr2 =>
          obtain ⟨nm, r2⟩ := pr2
          have hr := scanLits_some_eq _ _ _ hlit
          have hr2 : r = ":location:".data ++ ('u' :: ("rgent:".data ++ r1)) := hr
          subst hr2
          have hclk : applyGrammar .clockK cell cs = none := by
            simp only [applyGrammar, hscan, Option.bind_eq_bind, Option.some_bind, List.cons_append,
              List.nil_append]
            rw [scanLits_colon2 'c' 'l' _ _ (by decide)]
            rfl
          have hcst : applyGrammar .constK cell cs = none := by
            simp only [applyGrammar, hscan, Option.bind_eq_bind, Option.some_bind, List.cons_append,
              List.nil_append]
            rw [scanLits_colon2 'c' 'l' _ _ (by decide)]
            rfl
          have hvar : applyGrammar .varK cell cs = none := by
            simp only [applyGrammar, hscan, Option.bind_eq_bind, Option.some_bind, List.cons_append,
              List.nil_append]
            rw [scanLits_colon2 'v' 'l' _ _ (by decide)]
            rfl
          have hmet : applyGrammar .metaK cell cs = none := by
            simp only [applyGrammar, hscan, Option.bind_eq_bind, Option.some_bind, List.cons_append,
              List.nil_append]
            rw [scanLits_colon2 'm' 'l' _ _ (by decide)]
            rfl
          have hsys : applyGrammar .sysMetaK cell cs = none := by
            simp only [applyGrammar, hscan, Option.bind_eq_bind, Option.some_bind, List.cons_append,
              List.nil_append]
            rw [scanLits_colon2 's' 'l' _ _ (by decide)]
            rfl
          have hpln : applyGrammar .locPlain cell cs = none := by
            simp only [applyGrammar, hscan, Option.bind_eq_bind, Option.some_bind, List.cons_append,
              List.nil_append]
            rw [scanLits_plain_flagged 'u' _ (by decide)]
            rfl
          have hcom : applyGrammar .locCommitted cell cs = none := by
            simp only [applyGrammar, hscan, Option.bind_eq_bind, Option.some_bind, List.cons_append,
              List.nil_append]
            rw [scanLits_committed_flagged 'u' _ (by decide)]
            rfl
          have hflag : c.locFlags = .URGENT := by
            simp only [applyGrammar, hscan, Option.bind_eq_bind, Option.some_bind, hlit, hstr,
              Option.pure_def, Option.some.injEq] at h
            rw [← h]
          refine ⟨?_, hflag⟩
          simp only [classifyLayout, layoutTrialOrder, firstGrammar,
            hclk, hcst, hvar, hmet, hsys, hpln, hcom, h]

/-- Claim C8 witness: the committed record 1:location:committed:L0 and
the urgent record 1:location:urgent:L1 are classified as committed and
urgent location cells through the cascade. -/
theorem c8_layout_order_amended_witness :
    classifyLayout {} "1:location:committed:L0".data =
      some (.locCommitted, { type := .LOCATION, locFlags := .COMMITTED, name := "L0" }) ∧
    classifyLayout {} "1:location:urgent:L1".data =
      some (.locUrgent, { type := .LOCATION, locFlags := .URGENT, name := "L1" }) :=
  ⟨((c8_layout_order_amended {} "1:location:committed:L0".data
      { type := .LOCATION, locFlags := .COMMITTED, name := "L0" }).1 (by decide)).1,
    ((c8_layout_order_amended {} "1:location:urgent:L1".data
      { type := .LOCATION, locFlags := .URGENT, name := "L1" }).2 (by decide)).1⟩

/-- Claim C8 counterexample: in the cascade order of the source, the
plain location grammar is tried before the committed and urgent
variants, contradicting the claimed flagged-before-plain order. -/
theorem c8_counterexample :
    layoutTrialOrder.indexOf .locPlain < layoutTrialOrder.indexOf .locCommitted ∧
      layoutTrialOrder.indexOf .locPlain < layoutTrialOrder.indexOf .locUrgent := by
  decide

theorem keyLookup_append_of_some (es : List (Int × String)) (k : Int) (w : String)
    (a : Int) (v : String) (h : keyLookup es k = some w) :
    keyLookup (es ++ [(a, v)]) k = some w := by
  induction es with
  | nil => simp [keyLookup] at h
  | cons p rest ih =>
    by_cases hk : k = p.1
    · simp only [keyLookup, if_pos hk] at h
      simp only [List.cons_append, keyLookup, if_pos hk]
      exact h
    · simp only [keyLookup, if_neg hk] at h
      simp only [List.cons_append, keyLookup, if_neg hk]
      exact ih h

theorem keyLookup_append_of_none (es : List (Int × String)) (k : Int)
    (a : Int) (v : String) (h : keyLookup es k = none) :
    keyLookup (es ++ [(a, v)]) k = if k = a then some v else none := by
  induction es with
  | nil => simp [keyLookup]
  | cons p rest ih =>
    by_cases hk : k = p.1
    · simp only [keyLookup, if_pos hk] at h
      exact absurd h (by simp)
    · simp only [keyLookup, if_neg hk] at h
      simp only [List.cons_append, keyLookup, if_neg hk]
      exact ih h

theorem mapIndex_preserve (es : List (Int × String)) (k j : Int) (v : String)
    (h : keyLookup es j = some v) : keyLookup (mapIndex es k).2 j = some v := by
  unfold mapIndex
  cases hk : keyLookup es k with
  | some w => exact h
  | none => exact keyLookup_append_of_some es j v k "" h

theorem mapIndex_new (es : List (Int × String)) (k j : Int)
    (h : keyLookup (mapIndex es k).2 j ≠ keyLookup es j) :
    keyLookup (mapIndex es k).2 j = some "" := by
  cases hk : keyLookup es k with
  | some w =>
    have he : (mapIndex es k).2 = es := by simp [mapIndex, hk]
    rw [he] at h
    exact absurd rfl h
  | none =>
    have he : (mapIndex es k).2 = es ++ [(k, "")] := by simp [mapIndex, hk]
    rw [he] at h ⊢
    cases hj : keyLookup es j with
    | some w =>
      exact absurd (keyLookup_append_of_some es j w k "" hj) (by rw [hj] at h; exact h)
    | none =>
      have ha := keyLookup_append_of_none es j k "" hj
      by_cases hjk : j = k
      · rw [ha, if_pos hjk]
      · rw [hj] at h
        rw [ha, if_neg hjk] at h
        exact absurd rfl h

theorem ExprExt_refl (es : List (Int × String)) : ExprExt es es :=
  ⟨fun _ _ h => h, fun _ h => absurd rfl h⟩

theorem ExprExt_trans (e1 e2 e3 : List (Int × String))
    (h12 : ExprExt e1 e2) (h23 : ExprExt e2 e3) : ExprExt e1 e3 := by
  refine ⟨fun k v h => h23.1 k v (h12.1 k v h), fun k h => ?_⟩
  by_cases h2 : keyLookup e3 k = keyLookup e2 k
  · rw [h2]
    rw [h2] at h
    exact h12.2 k h
  · exact h23.2 k h2

theorem ExprExt_mapIndex (es : List (Int × String)) (k : Int) :
    ExprExt es (mapIndex es k).2 :=
  ⟨fun j v h => mapIndex_preserve es k j v h, fun j h => mapIndex_new es k j h⟩

theorem ExprExt_renderEdge (m : Model) (es : List (Int × String)) (e : EdgeI) :
    ExprExt es (renderEdgeT m es e).2 := by
  unfold renderEdgeT
  dsimp only
  exact ExprExt_trans es
    (mapIndex (mapIndex es (resolveEdge m e).guard).2 (resolveEdge m e).sync).2
    (mapIndex (mapIndex (mapIndex es (resolveEdge m e).guard).2
      (resolveEdge m e).sync).2 (resolveEdge m e).update).2
    (ExprExt_trans es (mapIndex es (resolveEdge m e).guard).2
      (mapIndex (mapIndex es (resolveEdge m e).guard).2 (resolveEdge m e).sync).2
      (ExprExt_mapIndex es (resolveEdge m e).guard)
      (ExprExt_mapIndex (mapIndex es (resolveEdge m e).guard).2 (resolveEdge m e).sync))
    (ExprExt_mapIndex (mapIndex (mapIndex es (resolveEdge m e).guard).2
      (resolveEdge m e).sync).2 (resolveEdge m e).update)

theorem foldl_ExprExt (m : Model) :
    ∀ (t : List EdgeI) (es0 : List (Int × String)) (a : String × List (Int × String)),
      ExprExt es0 a.2 →
      ExprExt es0
        ((t.foldl
          (fun acc e => ((acc.1 ++ (renderEdgeT m acc.2 e).1, (renderEdgeT m acc.2 e).2) :
            String × List (Int × String))) a).2) := by
  intro t
  induction t with
  | nil => intro es0 a ha; exact ha
  | cons e rest ih =>
    intro es0 a ha
    simp only [List.foldl_cons]
    exact ih es0 _ (ExprExt_trans _ _ _ ha (ExprExt_renderEdge m a.2 e))

/-- Claim C4, amended: rendering builds text without touching the trace
or the model's layout, process and edge tables, but it is not pure on
the expression table: the map subscript inserts an empty string for each
absent guard, sync or update key. The insertion is the only change:
every entry present before rendering is preserved, and any key whose
lookup changed now maps to the empty string. -/
theorem c4_render_amended (m : Model) (t : List EdgeI) :
    ExprExt m.expressions (renderTransitionT m t).2 := by
  unfold renderTransitionT
  exact foldl_ExprExt m t m.expressions ("", m.expressions) (ExprExt_refl m.expressions)

/-- Claim C4 witness: expression key 3 present before rendering is still
present and unchanged afterwards. -/
theorem c4_render_amended_witness :
    keyLookup (renderTransitionT
      { layout := [{ type := .LOCATION, name := "L0" }, { type := .LOCATION, name := "L1" }],
        instructions := [],
        processes := [{ initial := 0, name := "P", locations := [0, 1], edges := [0] }],
        edges := [{ process := 0, source := 0, target := 1, guard := 3, sync := 4, update := 5 }],
        expressions := [(3, "x>1")], clocks := [], varNames := [] }
      [{ process := 0, edge := 0, select := [] }]).2 3 = some "x>1" :=
  (c4_render_amended
      { layout := [{ type := .LOCATION, name := "L0" }, { type := .LOCATION, name := "L1" }],
        instructions := [],
        processes := [{ initial := 0, name := "P", locations := [0, 1], edges := [0] }],
        edges := [{ process := 0, source := 0, target := 1, guard := 3, sync := 4, update := 5 }],
        expressions := [(3, "x>1")], clocks := [], varNames := [] }
      [{ process := 0, edge := 0, select := [] }]).1 3 "x>1" (by decide)

/-- Claim C4 counterexample: rendering a transition whose guard, sync
and update keys are absent from the expression table returns a changed
expression table — the map subscript inserted empty entries — so
rendering does mutate the model. -/
theorem c4_counterexample :
    (renderTransitionT
      { layout := [{ type := .LOCATION, name := "L0" }, { type := .LOCATION, name := "L1" }],
        instructions := [],
        processes := [{ initial := 0, name := "P", locations := [0, 1], edges := [0] }],
        edges := [{ process := 0, source := 0, target := 1, guard := 3, sync := 4, update := 5 }],
        expressions := [], clocks := [], varNames := [] }
      [{ process := 0, edge := 0, select := [] }]).2 = [(3, ""), (4, ""), (5, "")] ∧
    keyLookup ([] : List (Int × String)) 3 ≠ some "" := by
  constructor
  · decide
  · decide

theorem mapIndex_fst (es : List (Int × String)) (k : Int) :
    (mapIndex es k).1 = (keyLookup es k).getD "" := by
  unfold mapIndex
  cases hk : keyLookup es k with
  | some w => rfl
  | none => rfl

theorem lookD_mapIndex_snd (es : List (Int × String)) (k j : Int) :
    (keyLookup (mapIndex es k).2 j).getD "" = (keyLookup es j).getD "" := by
  cases hk : keyLookup es k with
  | some w =>
    have he : (mapIndex es k).2 = es := by simp [mapIndex, hk]
    rw [he]
  | none =>
    have he : (mapIndex es k).2 = es ++ [(k, "")] := by simp [mapIndex, hk]
    rw [he]
    cases hj : keyLookup es j with
    | some w => rw [keyLookup_append_of_some es j w k "" hj]
    | none =>
      rw [keyLookup_append_of_none es j k "" hj]
      by_cases hjk : j = k
      · rw [if_pos hjk]
        rfl
      · rw [if_neg hjk]

theorem lookD_append_empty (es : List (Int × String)) (k j : Int) :
    (keyLookup (es ++ [(k, "")]) j).getD "" = (keyLookup es j).getD "" := by
  cases hj : keyLookup es j with
  | some w => rw [keyLookup_append_of_some es j w k "" hj]
  | none =>
    rw [keyLookup_append_of_none es j k "" hj]
    by_cases hjk : j = k
    · rw [if_pos hjk]
      rfl
    · rw [if_neg hjk]

/-- The text of one rendered edge depends only on the lookups of the
guard, sync and update keys in the table as it was before the edge was
rendered: each slot is that lookup with the empty-string default,
because any entry the earlier reads of the same edge inserted is itself
empty. -/
theorem renderEdge_text_decomp (m : Model) (es : List (Int × String)) (e : EdgeI) :
    (renderEdgeT m es e).1 =
      edgeHeadText m e ++ selText e.select
        ++ " \x7b" ++ (keyLookup es (resolveEdge m e).guard).getD "" ++ "; "
        ++ (keyLookup es (resolveEdge m e).sync).getD "" ++ "; "
        ++ (keyLookup es (resolveEdge m e).update).getD "" ++ ";\x7d " := by
  unfold renderEdgeT
  dsimp only
  rw [mapIndex_fst es (resolveEdge m e).guard,
    mapIndex_fst (mapIndex es (resolveEdge m e).guard).2 (resolveEdge m e).sync,
    mapIndex_fst (mapIndex (mapIndex es (resolveEdge m e).guard).2 (resolveEdge m e).sync).2
      (resolveEdge m e).update,
    lookD_mapIndex_snd es (resolveEdge m e).guard (resolveEdge m e).sync,
    lookD_mapIndex_snd (mapIndex es (resolveEdge m e).guard).2 (resolveEdge m e).sync
      (resolveEdge m e).update,
    lookD_mapIndex_snd es (resolveEdge m e).guard (resolveEdge m e).update]

/-- Claim C6: when an edge's guard, sync or update key is absent from
the expression table, the map subscript yields the empty string, so that
slot between the braces and its semicolon renders as empty text; the
rendered text decomposes into the three slots read from the original
table, an absent guard key renders the whole edge exactly as if the
table held the empty string for it (with the identical inserted table),
and an absent sync or update key yields the same text as a table holding
the empty string for it; rendering is total, so a missing key is never a
failure. -/
theorem c6_missing_expression (m : Model) (es : List (Int × String)) (e : EdgeI) :
    ((renderEdgeT m es e).1 =
      edgeHeadText m e ++ selText e.select
        ++ " \x7b" ++ (keyLookup es (resolveEdge m e).guard).getD "" ++ "; "
        ++ (keyLookup es (resolveEdge m e).sync).getD "" ++ "; "
        ++ (keyLookup es (resolveEdge m e).update).getD "" ++ ";\x7d ") ∧
    (keyLookup es (resolveEdge m e).guard = none →
      (mapIndex es (resolveEdge m e).guard).1 = "" ∧
      renderEdgeT m es e = renderEdgeT m (es ++ [((resolveEdge m e).guard, "")]) e) ∧
    (keyLookup es (resolveEdge m e).sync = none →
      (mapIndex (mapIndex es (resolveEdge m e).guard).2 (resolveEdge m e).sync).1 = "" ∧
      (renderEdgeT m es e).1 = (renderEdgeT m (es ++ [((resolveEdge m e).sync, "")]) e).1) ∧
    (keyLookup es (resolveEdge m e).update = none →
      (mapIndex (mapIndex (mapIndex es (resolveEdge m e).guard).2 (resolveEdge m e).sync).2
        (resolveEdge m e).update).1 = "" ∧
      (renderEdgeT m es e).1 = (renderEdgeT m (es ++ [((resolveEdge m e).update, "")]) e).1) := by
  refine ⟨renderEdge_text_decomp m es e, ?_, ?_, ?_⟩
  · intro habs
    have hg : mapIndex es (resolveEdge m e).guard =
        ("", es ++ [((resolveEdge m e).guard, "")]) := by
      simp [mapIndex, habs]
    have hl2 : keyLookup (es ++ [((resolveEdge m e).guard, "")]) (resolveEdge m e).guard =
        some "" := by
      rw [keyLookup_append_of_none es (resolveEdge m e).guard (resolveEdge m e).guard "" habs]
      simp
    have hg2 : mapIndex (es ++ [((resolveEdge m e).guard, "")]) (resolveEdge m e).guard =
        ("", es ++ [((resolveEdge m e).guard, "")]) := by
      simp [mapIndex, hl2]
    constructor
    · rw [hg]
    · unfold renderEdgeT
      rw [hg, hg2]
  · intro habs
    constructor
    · rw [mapIndex_fst (mapIndex es (resolveEdge m e).guard).2 (resolveEdge m e).sync,
        lookD_mapIndex_snd es (resolveEdge m e).guard (resolveEdge m e).sync, habs]
      rfl
    · rw [renderEdge_text_decomp m es e,
        renderEdge_text_decomp m (es ++ [((resolveEdge m e).sync, "")]) e,
        lookD_append_empty es (resolveEdge m e).sync (resolveEdge m e).guard,
        lookD_append_empty es (resolveEdge m e).sync (resolveEdge m e).sync,
        lookD_append_empty es (resolveEdge m e).sync (resolveEdge m e).update]
  · intro habs
    constructor
    · rw [mapIndex_fst (mapIndex (mapIndex es (resolveEdge m e).guard).2
          (resolveEdge m e).sync).2 (resolveEdge m e).update,
        lookD_mapIndex_snd (mapIndex es (resolveEdge m e).guard).2 (resolveEdge m e).sync
          (resolveEdge m e).update,
        lookD_mapIndex_snd es (resolveEdge m e).guard (resolveEdge m e).update, habs]
      rfl
    · rw [renderEdge_text_decomp m es e,
        renderEdge_text_decomp m (es ++ [((resolveEdge m e).update, "")]) e,
        lookD_append_empty es (resolveEdge m e).update (resolveEdge m e).guard,
        lookD_append_empty es (resolveEdge m e).update (resolveEdge m e).sync,
        lookD_append_empty es (resolveEdge m e).update (resolveEdge m e).update]

/-- Claim C6 witness: against the demo edge with guard key 3, sync key 4
and update key 5, an absent guard key renders an empty guard slot and
the same edge text as a table holding key 3 as the empty string; an
absent sync key and an absent update key render empty sync and update
slots. -/
theorem c6_missing_expression_witness :
    (mapIndex [(4, "c!")] 3).1 = "" ∧
    renderEdgeT
      { layout := [{ type := .LOCATION, name := "L0" }, { type := .LOCATION, name := "L1" }],
        instructions := [],
        processes := [{ initial := 0, name := "P", locations := [0, 1], edges := [0] }],
        edges := [{ process := 0, source := 0, target := 1, guard := 3, sync := 4, update := 5 }],
        expressions := [], clocks := [], varNames := [] } [(4, "c!")]
      { process := 0, edge := 0, select := [] } =
    renderEdgeT
      { layout := [{ type := .LOCATION, name := "L0" }, { type := .LOCATION, name := "L1" }],
        instructions := [],
        processes := [{ initial := 0, name := "P", locations := [0, 1], edges := [0] }],
        edges := [{ process := 0, source := 0, target := 1, guard := 3, sync := 4, update := 5 }],
        expressions := [], clocks := [], varNames := [] } ([(4, "c!")] ++ [(3, "")])
      { process := 0, edge := 0, select := [] } ∧
    (mapIndex (mapIndex [(3, "x>1")] 3).2 4).1 = "" ∧
    (mapIndex (mapIndex (mapIndex [(4, "c!")] 3).2 4).2 5).1 = "" :=
  ⟨((c6_missing_expression
      { layout := [{ type := .LOCATION, name := "L0" }, { type := .LOCATION, name := "L1" }],
        instructions := [],
        processes := [{ initial := 0, name := "P", locations := [0, 1], edges := [0] }],
        edges := [{ process := 0, source := 0, target := 1, guard := 3, sync := 4, update := 5 }],
        expressions := [], clocks := [], varNames := [] } [(4, "c!")]
      { process := 0, edge := 0, select := [] }).2.1 (by decide)).1,
    ((c6_missing_expression
      { layout := [{ type := .LOCATION, name := "L0" }, { type := .LOCATION, name := "L1" }],
        instructions := [],
        processes := [{ initial := 0, name := "P", locations := [0, 1], edges := [0] }],
        edges := [{ process := 0, source := 0, target := 1, guard := 3, sync := 4, update := 5 }],
        expressions := [], clocks := [], varNames := [] } [(4, "c!")]
      { process := 0, edge := 0, select := [] }).2.1 (by decide)).2,
    ((c6_missing_expression
      { layout := [{ type := .LOCATION, name := "L0" }, { type := .LOCATION, name := "L1" }],
        instructions := [],
        processes := [{ initial := 0, name := "P", locations := [0, 1], edges := [0] }],
        edges := [{ process := 0, source := 0, target := 1, guard := 3, sync := 4, update := 5 }],
        expressions := [], clocks := [], varNames := [] } [(3, "x>1")]
      { process := 0, edge := 0, select := [] }).2.2.1 (by decide)).1,
    ((c6_missing_expression
      { layout := [{ type := .LOCATION, name := "L0" }, { type := .LOCATION, name := "L1" }],
        instructions := [],
        processes := [{ initial := 0, name := "P", locations := [0, 1], edges := [0] }],
        edges := [{ process := 0, source := 0, target := 1, guard := 3, sync := 4, update := 5 }],
        expressions := [], clocks := [], varNames := [] } [(4, "c!")]
      { process := 0, edge := 0, select := [] }).2.2.2 (by decide)).1⟩

/-- Claim C9: loadTrace decodes one initial state and then loops; in
each iteration it first skips spaces and, when the next character is the
terminator dot, consumes it and stops; otherwise it decodes one state
and then one transition from the stream (state first, matching the
on-disk order) and appends them as one step, pairing the two values of
the same iteration. -/
theorem c9_trace_pairing (pc vc cc fuel : Nat) (acc : List (StateS × List EdgeI))
    (is : IStr) :
    ((skipSpacesS is).peekc = some '.' →
      traceLoop pc vc cc (fuel + 1) acc is = .ok (acc, ((skipSpacesS is).getc).2)) ∧
    (∀ s is2 t is3 r,
      (skipSpacesS is).peekc ≠ some '.' →
      decodeState pc vc cc (skipSpacesS is) = .ok (s, is2) →
      decodeTransition is2 = .ok (t, is3) →
      traceLoop pc vc cc fuel (acc ++ [(s, t)]) is3 = r →
      traceLoop pc vc cc (fuel + 1) acc is = r) ∧
    (∀ s0 is1 steps isE,
      decodeState pc vc cc is = .ok (s0, is1) →
      traceLoop pc vc cc (is1.data.length + 1) [] is1 = .ok (steps, isE) →
      loadTrace pc vc cc is = .ok (s0, steps)) := by
  refine ⟨?_, ?_, ?_⟩
  · intro h
    simp only [traceLoop, h, if_true]
  · intro s is2 t is3 r h hs ht hr
    simp only [traceLoop, if_neg h, hs, ht]
    exact hr
  · intro s0 is1 steps isE h0 h1
    simp only [loadTrace, h0, h1]

/-- Claim C9 witness: on a one-step trace the loop pairs the state and
the transition decoded in the same iteration, and the terminator dot
ends the loop; the decoded trace is the initial state plus one
(state, transition) step. -/
theorem c9_trace_pairing_witness :
    traceLoop 1 0 1 3 [] (ofString ".") = .ok ([], { data := [], fail := false }) ∧
    loadTrace 1 0 1 (ofString "0\n.\n.\n.\n0\n.\n.\n.\n0 0;\n.\n.") =
      .ok ({ locations := [0], integers := [], dbm := [zeroB] },
        [({ locations := [0], integers := [], dbm := [zeroB] },
          [{ process := 0, edge := 0, select := [] }])]) :=
  ⟨(c9_trace_pairing 1 0 1 2 [] (ofString ".")).1 (by decide),
    (c9_trace_pairing 1 0 1 0 [] (ofString "0\n.\n.\n.\n0\n.\n.\n.\n0 0;\n.\n.")).2.2
      { locations := [0], integers := [], dbm := [zeroB] }
      { data := "0\n.\n.\n.\n0 0;\n.\n.".data, fail := false }
      [({ locations := [0], integers := [], dbm := [zeroB] },
        [{ process := 0, edge := 0, select := [] }])]
      { data := [], fail := false }
      (by decide) (by decide)⟩

end Tracer
